import Mathlib

/-!
# Verification of the vscode-jest-vis coverage core

A shallow embedding of the coverage-aggregation store
(`src/TestPatternsCoverage/TestPatternsCoverageMapProvider.ts`) and the
per-line classification-and-scoring algorithm
(`AbstractFormatter.lineCoverages` and its helpers), together with proofs
of the specification's claims about them.

Modelling conventions:
* JavaScript `Map` and the per-pattern coverage objects are embedded as
  association lists over `String` keys; `Map.set` updates an existing key
  in place and appends a fresh key at the end, `Set.add` appends a fresh
  element at the end — both are mirrored exactly by `alSet` / `addElem`.
* The provider's `mapStore` is created by `createSourceMapStore()` and no
  source map is ever registered anywhere in the repository, so
  `mapStore.transformCoverage` leaves the coverage content unchanged; the
  embedded `update` therefore takes the (transformed) coverage-map data
  directly.  `createCoverageMap(undefined)` yields an empty map, embedded
  as `Option.getD [] = []`.
* JavaScript number division is embedded as exact `Rat` division.  Every
  concrete value the claims mention (0, 1/2, 1) is reached through exact
  divisions in the source as well, so no rounding is lost.
-/

/-! ## Association-list primitives (JavaScript `Map` / plain-object semantics) -/

/-- Lookup in an association list: the value at the first matching key
(`Map.get`, or reading `obj[key]`). -/
def alGet {β : Type} : List (String × β) → String → Option β
  | [], _ => none
  | (k, v) :: rest, key => if k = key then some v else alGet rest key

/-- Update in an association list: overwrite the first matching key in
place, or append a fresh key at the end (`Map.set`, or `obj[key] = v`). -/
def alSet {β : Type} : List (String × β) → String → β → List (String × β)
  | [], key, val => [(key, val)]
  | (k, v) :: rest, key, val =>
      if k = key then (k, val) :: rest else (k, v) :: alSet rest key val

/-- `Set.add`: append the element if it is not already present. -/
def addElem (l : List String) (x : String) : List String :=
  if x ∈ l then l else l ++ [x]

/-! ## Coverage data model (istanbul-lib-coverage `FileCoverage` content)

The istanbul per-file data is `{ statementMap, s, fnMap, f, branchMap, b }`
with parallel id-indexed tables.  The embedding pairs each id's map entry
with its hit entry, keeping table order (JavaScript enumerates the
numeric-string ids of these objects in ascending order, i.e. insertion
order of the instrumented file). -/

/-- One statement: `statementMap[id].start.line` with hit count `s[id]`. -/
structure StmtEntry where
  line : Nat
  hits : Nat
deriving DecidableEq

/-- One function: `fnMap[id].decl.start.line .. decl.end.line` with hit
count `f[id]`. -/
structure FnEntry where
  declStartLine : Nat
  declEndLine : Nat
  hits : Nat
deriving DecidableEq

/-- One branch: `branchMap[id]`'s line with the hit array `b[id]`. -/
structure BranchEntry where
  line : Nat
  hits : List Nat
deriving DecidableEq

/-- The per-file coverage record consumed by the formatter. -/
structure FileCoverage where
  path : String
  stmts : List StmtEntry
  fns : List FnEntry
  branches : List BranchEntry
deriving DecidableEq

/-- `CoverageMap.data`: file path to its `FileCoverage`. -/
abbrev CoverageMapData := List (String × FileCoverage)

/-- `CoverageMap.files()`: the keys of the data object. -/
def covFiles (m : CoverageMapData) : List String := m.map (·.1)

/-! ## The coverage store (`TestPatternsCoverageMapProvider`) -/

/-- One element of `getFileCoverages`' result (interface
`TestPatternCoverage`): both `fileCoverage` and `isPass` are optional in
the source. -/
structure TestPatternCoverage where
  fileCoverage : Option FileCoverage
  isPass : Option Bool
  testPattern : String
deriving DecidableEq

/-- The provider's mutable fields: `_fileNameToTestPatterns` (file path →
set of test patterns), `_testPatternsToIsPass` (pattern → verdict), and
`_testPatternsToMap` (pattern → transformed coverage map).  The unused
aggregate `_map` and the (empty) `mapStore` carry no claim-relevant
state. -/
structure ProviderState where
  fileNameToTestPatterns : List (String × List String)
  testPatternsToIsPass : List (String × Bool)
  testPatternsToMap : List (String × CoverageMapData)
deriving DecidableEq

/-- `reset()`: all three maps become empty (also the constructor's
state). -/
def resetState : ProviderState := ⟨[], [], []⟩

/-- The pattern table after `setFileCoverage(testPattern, filePath, map)`:
ensure the pattern has a map in the table, then
`table.get(testPattern).data[filePath] = map.fileCoverageFor(filePath)`.
`fileCoverageFor` throws when `filePath` is absent from `map`; `update`
only calls it on `map.files()`, so the `none` branch is unreachable from
`update` and leaves the data alone. -/
def setFileCoverageTable (tbl0 : List (String × CoverageMapData))
    (testPattern filePath : String) (m : CoverageMapData) :
    List (String × CoverageMapData) :=
  let tbl := if (alGet tbl0 testPattern).isSome then tbl0 else alSet tbl0 testPattern []
  match alGet m filePath with
  | some fc =>
      let cur := (alGet tbl testPattern).getD []
      alSet tbl testPattern (alSet cur filePath fc)
  | none => tbl

/-- `setFileCoverage`: mutates only the pattern-to-coverage-map table. -/
def setFileCoverage (st : ProviderState) (testPattern filePath : String)
    (m : CoverageMapData) : ProviderState :=
  { st with
    testPatternsToMap := setFileCoverageTable st.testPatternsToMap testPattern filePath m }

/-- The body of `update`'s `transformed.files().forEach(...)`: register
(fileName → testPattern) in the reverse index, then store that file's
coverage for the pattern. -/
def registerFile (testPattern : String) (transformed : CoverageMapData)
    (acc : ProviderState) (fileName : String) : ProviderState :=
  let acc1 :=
    { acc with
      fileNameToTestPatterns :=
        match alGet acc.fileNameToTestPatterns fileName with
        | some s => alSet acc.fileNameToTestPatterns fileName (addElem s testPattern)
        | none => alSet acc.fileNameToTestPatterns fileName [testPattern] }
  setFileCoverage acc1 testPattern fileName transformed

/-- `update(testPattern, isPass, obj)`: record the verdict; if the pattern
already has a stored map (a `CoverageMap` object is always truthy), merge
per file and register the reverse index, else store the transformed map
wholesale without touching the reverse index.  `obj` is the post-transform
coverage data (`none` embeds an absent argument: `createCoverageMap()`
gives an empty map). -/
def update (st : ProviderState) (testPattern : String) (isPass : Bool)
    (obj : Option CoverageMapData) : ProviderState :=
  let st1 := { st with testPatternsToIsPass := alSet st.testPatternsToIsPass testPattern isPass }
  let transformed : CoverageMapData := obj.getD []
  if (alGet st1.testPatternsToMap testPattern).isSome then
    (covFiles transformed).foldl (registerFile testPattern transformed) st1
  else
    { st1 with testPatternsToMap := alSet st1.testPatternsToMap testPattern transformed }

/-- `getTestPatternFileCoverage`: the stored per-file coverage, `none`
when either the pattern or the file is unknown. -/
def getTestPatternFileCoverage (st : ProviderState) (testPattern filePath : String) :
    Option FileCoverage :=
  match alGet st.testPatternsToMap testPattern with
  | some m => alGet m filePath
  | none => none

/-- `getTestPatternIsPass`: the recorded verdict, if any. -/
def getTestPatternIsPass (st : ProviderState) (testPattern : String) : Option Bool :=
  alGet st.testPatternsToIsPass testPattern

/-- `getFileCoverages(filePath)`: one entry per pattern currently indexed
against the file, in indexing order. -/
def getFileCoverages (st : ProviderState) (filePath : String) : List TestPatternCoverage :=
  let pats := (alGet st.fileNameToTestPatterns filePath).getD []
  pats.map fun p =>
    { fileCoverage := getTestPatternFileCoverage st p filePath
      isPass := getTestPatternIsPass st p
      testPattern := p }

/-- A sequence of `update` calls applied in order. -/
def applyUpdates (st : ProviderState)
    (calls : List (String × Bool × Option CoverageMapData)) : ProviderState :=
  calls.foldl (fun acc c => update acc c.1 c.2.1 c.2.2) st

/-! ## Line scoring engine (`AbstractFormatter`) -/

/-- `CoverageStatus` from `CoverageOverlay.ts`:
`covered | partially-covered | uncovered` (the middle value is spelled
`partlyCovered` here). -/
inductive CoverageStatus where
  | covered
  | partlyCovered
  | uncovered
deriving DecidableEq

/-- Numeric severity used by the comparator in `lineCoverages`: the sort
puts `uncovered` before `partlyCovered` before `covered`, i.e. ascending
in this rank. -/
def severity : CoverageStatus → Nat
  | .uncovered => 0
  | .partlyCovered => 1
  | .covered => 2

/-- `FileCoverage.getLineCoverage()` at one line: the maximal hit count
over statements whose `start.line` is this line (istanbul keeps the larger
count when two statements share a start line); `none` when no statement
starts here. -/
def getLineCoverageAt (fcov : FileCoverage) (line : Nat) : Option Nat :=
  fcov.stmts.foldl
    (fun acc e =>
      if e.line = line then
        match acc with
        | none => some e.hits
        | some p => some (if p < e.hits then e.hits else p)
      else acc)
    none

/-- `FileCoverage.getBranchCoverageByLine()` at one line, as the pair
(covered, total): istanbul accumulates, over every branch recorded at the
line, the count of hit array entries that are `> 0` and the hit array
length; `none` when no branch is recorded here. -/
def getBranchCovAt (fcov : FileCoverage) (line : Nat) : Option (Nat × Nat) :=
  fcov.branches.foldl
    (fun acc e =>
      if e.line = line then
        let c := (e.hits.filter (fun h => 0 < h)).length
        let t := e.hits.length
        match acc with
        | none => some (c, t)
        | some ct => some (ct.1 + c, ct.2 + t)
      else acc)
    none

/-- `AbstractFormatter.getFunctionCoverageByLine` at one line: each
function writes its hit count onto every line of its declaration range, in
table order, so the last function containing the line wins; `none` when no
function declaration covers the line. -/
def getFnCovAt (fcov : FileCoverage) (line : Nat) : Option Nat :=
  fcov.fns.foldl
    (fun acc e => if e.declStartLine ≤ line ∧ line ≤ e.declEndLine then some e.hits else acc)
    none

/-- The `statusList` built in `lineCoverages` for one (file coverage,
line) pair: a function candidate (`covered` iff hits > 0), then a branch
candidate (`uncovered` exactly when istanbul's percentage
`covered/total*100` is `0`, i.e. covered = 0 with a nonzero total — a zero
total gives `NaN`, which falls to the `default:`/`covered` case), then a
statement candidate; when no candidate applies, the caller-supplied
`onNoCoverageInfo` status, defaulting to `uncovered`. -/
def statusCandidates (fcov : FileCoverage) (line : Nat)
    (onNoCoverageInfo : Option CoverageStatus) : List CoverageStatus :=
  let l1 :=
    match getFnCovAt fcov line with
    | some h => [if 0 < h then CoverageStatus.covered else CoverageStatus.uncovered]
    | none => []
  let l2 :=
    match getBranchCovAt fcov line with
    | some ct =>
        [if ct.1 = 0 ∧ ct.2 ≠ 0 then CoverageStatus.uncovered else CoverageStatus.covered]
    | none => []
  let l3 :=
    match getLineCoverageAt fcov line with
    | some h => [if 0 < h then CoverageStatus.covered else CoverageStatus.uncovered]
    | none => []
  let base := l1 ++ l2 ++ l3
  if base.isEmpty then [onNoCoverageInfo.getD CoverageStatus.uncovered] else base

/-- `statusList.sort(severityComparator)[0]`: sorting ascending by
severity and taking the head yields an element of minimal severity, which
is what this fold computes.  The `[]` case never arises (`statusCandidates`
is never empty) and returns the least severe status. -/
def resolveStatus : List CoverageStatus → CoverageStatus
  | [] => CoverageStatus.covered
  | s :: rest => rest.foldl (fun a b => if severity b < severity a then b else a) s

/-- The status `lineCoverages` resolves for one `getFileCoverages` entry
at one line; `none` when the entry carries no file coverage (such entries
are skipped entirely). -/
def entryStatus (c : TestPatternCoverage) (line : Nat)
    (onNoCoverageInfo : Option CoverageStatus) : Option CoverageStatus :=
  match c.fileCoverage with
  | some fcov => some (resolveStatus (statusCandidates fcov line onNoCoverageInfo))
  | none => none

/-- Whether the entry increments a run tally at this line: its resolved
status is `covered`. -/
def entryContributes (c : TestPatternCoverage) (line : Nat)
    (onNoCoverageInfo : Option CoverageStatus) : Bool :=
  entryStatus c line onNoCoverageInfo == some CoverageStatus.covered

/-- `totalSuccess`: the reduce `p + (c.isPass === true ? 1 : 0)` over the
file's entries. -/
def totalSuccess (fcs : List TestPatternCoverage) : Nat :=
  fcs.foldl (fun p c => p + (if c.isPass == some true then 1 else 0)) 0

/-- `totalFailed`: the reduce `p + (c.isPass === false ? 1 : 0)` over the
file's entries. -/
def totalFailed (fcs : List TestPatternCoverage) : Nat :=
  fcs.foldl (fun p c => p + (if c.isPass == some false then 1 else 0)) 0

/-- The line's `numOfPassTests`: contributing entries with a truthy
`isPass` (i.e. exactly `some true`). -/
def lineNumPass (fcs : List TestPatternCoverage) (line : Nat)
    (onNoCoverageInfo : Option CoverageStatus) : Nat :=
  fcs.countP fun c => entryContributes c line onNoCoverageInfo && c.isPass == some true

/-- The line's `numOfFailedTests`: contributing entries with a falsy
`isPass` (the `else` of `if (c.isPass)`). -/
def lineNumFailed (fcs : List TestPatternCoverage) (line : Nat)
    (onNoCoverageInfo : Option CoverageStatus) : Nat :=
  fcs.countP fun c => entryContributes c line onNoCoverageInfo && !(c.isPass == some true)

/-- One value of the map `lineCoverages` returns (`LineHueCoverage`). -/
structure LineHueCoverage where
  numOfFailedTests : Nat
  numOfPassTests : Nat
  hue : Option Rat
  isCovered : Bool
deriving DecidableEq

/-- The record `lineCoverages` computes for one line: tally passing and
failing contributing runs, set `isCovered` when their sum is positive, and
in the second pass attach
`hue = 0 + numPass/totalSuccess / (numPass/totalSuccess + numFailed/totalFailed)`
for covered lines, leaving it undefined otherwise.  Divisions are exact
`Rat` divisions. -/
def lineRecord (st : ProviderState) (filePath : String) (line : Nat)
    (onNoCoverageInfo : Option CoverageStatus) : LineHueCoverage :=
  let fcs := getFileCoverages st filePath
  let tS := totalSuccess fcs
  let tF := totalFailed fcs
  let nP := lineNumPass fcs line onNoCoverageInfo
  let nF := lineNumFailed fcs line onNoCoverageInfo
  let isCov : Bool := decide (0 < nF + nP)
  { numOfFailedTests := nF
    numOfPassTests := nP
    hue :=
      if isCov then
        some (0 + ((nP : Rat) / (tS : Rat)) / ((nP : Rat) / (tS : Rat) + (nF : Rat) / (tF : Rat)))
      else none
    isCovered := isCov }

/-- `lineCoverages`: the per-line map for lines 1 .. `lineCount` of the
editor's document. -/
def lineCoverages (st : ProviderState) (filePath : String) (lineCount : Nat)
    (onNoCoverageInfo : Option CoverageStatus) : List (Nat × LineHueCoverage) :=
  (List.range' 1 lineCount).map fun line => (line, lineRecord st filePath line onNoCoverageInfo)

/-! ## Spec-side formulations

These definitions follow the specification's words, to be compared with
the code-derived computation above. -/

/-- The spec's `totalPassedRuns`: the number of contributing entries for
the file whose verdict is pass. -/
def specTotalPassed (st : ProviderState) (filePath : String) : Nat :=
  (getFileCoverages st filePath).countP fun c => c.isPass == some true

/-- The spec's `totalFailedRuns`: the number of contributing entries for
the file whose verdict is fail. -/
def specTotalFailed (st : ProviderState) (filePath : String) : Nat :=
  (getFileCoverages st filePath).countP fun c => c.isPass == some false

/-- The spec's suspiciousness formula,
`(numPassedRuns / totalPassedRuns) /
 ((numPassedRuns / totalPassedRuns) + (numFailedRuns / totalFailedRuns))`,
over the line's run tallies and the file's totals. -/
def specSuspiciousness (st : ProviderState) (filePath : String) (line : Nat)
    (onNoCoverageInfo : Option CoverageStatus) : Rat :=
  let r := lineRecord st filePath line onNoCoverageInfo
  ((r.numOfPassTests : Rat) / (specTotalPassed st filePath : Rat)) /
    (((r.numOfPassTests : Rat) / (specTotalPassed st filePath : Rat)) +
      ((r.numOfFailedTests : Rat) / (specTotalFailed st filePath : Rat)))

/-! ## Invariants -/

/-- The reverse index never names a pattern absent from the
pattern-to-coverage-map table. -/
abbrev IndexInv (st : ProviderState) : Prop :=
  ∀ pr ∈ st.fileNameToTestPatterns, ∀ q ∈ pr.2, (alGet st.testPatternsToMap q).isSome

/-- The reverse index never names a pattern without a recorded verdict. -/
abbrev VerdictInv (st : ProviderState) : Prop :=
  ∀ pr ∈ st.fileNameToTestPatterns, ∀ q ∈ pr.2, (alGet st.testPatternsToIsPass q).isSome

/-! ## Concrete scenario data -/

/-- Pattern A's coverage of file `f` in the spec's monotonicity scenario:
statements on lines 10 and 20, each hit once. -/
def covScenA : CoverageMapData :=
  [("f", { path := "f", stmts := [⟨10, 1⟩, ⟨20, 1⟩], fns := [], branches := [] })]

/-- Pattern B's coverage of file `f` in the spec's monotonicity scenario:
a statement on line 10, hit once; nothing at line 20. -/
def covScenB : CoverageMapData :=
  [("f", { path := "f", stmts := [⟨10, 1⟩], fns := [], branches := [] })]

/-- The store after one `update` per pattern: A (passed) then B (failed). -/
def stOneUpdateEach : ProviderState :=
  update (update resetState "A" true (some covScenA)) "B" false (some covScenB)

/-- The store after two `update` calls per pattern, so that both patterns
are registered in the reverse index for `f`. -/
def stTwoUpdatesEach : ProviderState :=
  update
    (update
      (update (update resetState "A" true (some covScenA)) "A" true (some covScenA))
      "B" false (some covScenB))
    "B" false (some covScenB)

/-- A file coverage with one function declaration spanning lines 1–5 with
hit count 0 and one statement on line 3 with hit count 5. -/
def fnZeroStmtFive : FileCoverage :=
  { path := "g", stmts := [⟨3, 5⟩], fns := [⟨1, 5, 0⟩], branches := [] }

/-! ## Association-list lemmas -/

theorem alGet_alSet_self {β : Type} (l : List (String × β)) (k : String) (v : β) :
    alGet (alSet l k v) k = some v := by
  induction l with
  | nil => simp [alSet, alGet]
  | cons hd tl ih =>
    obtain ⟨k0, v0⟩ := hd
    by_cases h : k0 = k
    · simp [alSet, h, alGet]
    · simp [alSet, h, alGet, ih]

theorem alGet_alSet_ne {β : Type} (l : List (String × β)) {k k' : String} (v : β)
    (h : k ≠ k') : alGet (alSet l k v) k' = alGet l k' := by
  induction l with
  | nil => simp [alSet, alGet, h]
  | cons hd tl ih =>
    obtain ⟨k0, v0⟩ := hd
    by_cases h0 : k0 = k
    · subst h0
      simp [alSet, alGet, h]
    · simp [alSet, h0, alGet, ih]

theorem alGet_alSet_isSome {β : Type} (l : List (String × β)) (k k' : String) (v : β)
    (h : (alGet l k').isSome) : (alGet (alSet l k v) k').isSome := by
  by_cases hk : k = k'
  · subst hk
    simp [alGet_alSet_self]
  · rwa [alGet_alSet_ne l v hk]

theorem mem_of_alGet {β : Type} {l : List (String × β)} {k : String} {v : β}
    (h : alGet l k = some v) : (k, v) ∈ l := by
  induction l with
  | nil => simp [alGet] at h
  | cons hd tl ih =>
    obtain ⟨k0, v0⟩ := hd
    by_cases h0 : k0 = k
    · subst h0
      simp [alGet] at h
      simp [h]
    · simp [alGet, h0] at h
      exact List.mem_cons_of_mem _ (ih h)

theorem mem_alSet {β : Type} {l : List (String × β)} {k : String} {v : β} {pr : String × β}
    (h : pr ∈ alSet l k v) : pr ∈ l ∨ pr = (k, v) := by
  induction l with
  | nil => simp [alSet] at h; simp [h]
  | cons hd tl ih =>
    obtain ⟨k0, v0⟩ := hd
    by_cases h0 : k0 = k
    · subst h0
      simp [alSet] at h
      rcases h with h | h
      · right; simp [h]
      · left; exact List.mem_cons_of_mem _ h
    · simp [alSet, h0] at h
      rcases h with h | h
      · left; simp [h]
      · rcases ih h with h1 | h1
        · left; exact List.mem_cons_of_mem _ h1
        · right; exact h1

/-! ## `addElem` lemmas -/

theorem mem_addElem_self (l : List String) (x : String) : x ∈ addElem l x := by
  unfold addElem
  split
  · assumption
  · simp

theorem mem_addElem_of_mem {l : List String} {y : String} (x : String) (h : y ∈ l) :
    y ∈ addElem l x := by
  unfold addElem
  split
  · exact h
  · simp [h]

theorem mem_of_addElem {l : List String} {x y : String} (h : y ∈ addElem l x) :
    y ∈ l ∨ y = x := by
  unfold addElem at h
  split at h
  · exact Or.inl h
  · simpa using h

/-! ## `covFiles` lemma -/

theorem alGet_isSome_of_mem_covFiles {m : CoverageMapData} {f : String}
    (h : f ∈ covFiles m) : (alGet m f).isSome := by
  induction m with
  | nil => simp [covFiles] at h
  | cons hd tl ih =>
    obtain ⟨k0, v0⟩ := hd
    by_cases h0 : k0 = f
    · simp [alGet, h0]
    · rw [show covFiles ((k0, v0) :: tl) = k0 :: covFiles tl from rfl] at h
      rcases List.mem_cons.mp h with h | h
      · exact absurd h.symm h0
      · simpa [alGet, h0] using ih h

/-! ## Counting lemmas -/

theorem foldl_add_ite_count {α : Type} (p : α → Bool) (l : List α) (n : Nat) :
    l.foldl (fun acc c => acc + (if p c then 1 else 0)) n = n + l.countP p := by
  induction l generalizing n with
  | nil => simp
  | cons hd tl ih =>
    simp only [List.foldl_cons, List.countP_cons, ih]
    cases h : p hd
    all_goals simp [h]
    all_goals omega

theorem totalSuccess_eq_countP (fcs : List TestPatternCoverage) :
    totalSuccess fcs = fcs.countP fun c => c.isPass == some true := by
  have h := foldl_add_ite_count (fun c => c.isPass == some true) fcs 0
  rw [Nat.zero_add] at h
  exact h

theorem totalFailed_eq_countP (fcs : List TestPatternCoverage) :
    totalFailed fcs = fcs.countP fun c => c.isPass == some false := by
  have h := foldl_add_ite_count (fun c => c.isPass == some false) fcs 0
  rw [Nat.zero_add] at h
  exact h

/-! ## Severity-resolution lemmas -/

theorem foldlMin_mem (rest : List CoverageStatus) (s : CoverageStatus) :
    rest.foldl (fun a b => if severity b < severity a then b else a) s ∈ s :: rest := by
  induction rest generalizing s with
  | nil => simp
  | cons b t ih =>
    simp only [List.foldl_cons]
    by_cases h : severity b < severity s
    · simp only [if_pos h]
      rcases List.mem_cons.mp (ih b) with h1 | h1
      · simp [h1]
      · simp [List.mem_cons_of_mem, h1]
    · simp only [if_neg h]
      rcases List.mem_cons.mp (ih s) with h1 | h1
      · simp [h1]
      · simp [List.mem_cons_of_mem, h1]

theorem foldlMin_le (rest : List CoverageStatus) :
    ∀ s x : CoverageStatus, x ∈ s :: rest →
      severity (rest.foldl (fun a b => if severity b < severity a then b else a) s) ≤
        severity x := by
  induction rest with
  | nil =>
    intro s x hx
    simp at hx
    simp [hx]
  | cons b t ih =>
    intro s x hx
    simp only [List.foldl_cons]
    have hstep1 : severity (if severity b < severity s then b else s) ≤ severity s := by
      by_cases h : severity b < severity s
      · simp [h]; omega
      · simp [h]
    have hstep2 : severity (if severity b < severity s then b else s) ≤ severity b := by
      by_cases h : severity b < severity s
      · simp [h]
      · simp [h]; omega
    have hres : severity (t.foldl (fun a b => if severity b < severity a then b else a)
        (if severity b < severity s then b else s)) ≤
        severity (if severity b < severity s then b else s) :=
      ih (if severity b < severity s then b else s) _ (List.mem_cons_self _ _)
    rcases List.mem_cons.mp hx with h1 | h1
    · rw [h1]; exact le_trans hres hstep1
    · rcases List.mem_cons.mp h1 with h2 | h2
      · rw [h2]; exact le_trans hres hstep2
      · exact ih _ _ (List.mem_cons_of_mem _ h2)

theorem resolveStatus_mem {l : List CoverageStatus} (h : l ≠ []) :
    resolveStatus l ∈ l := by
  cases l with
  | nil => exact absurd rfl h
  | cons s rest => exact foldlMin_mem rest s

theorem resolveStatus_le {l : List CoverageStatus} {x : CoverageStatus} (hx : x ∈ l) :
    severity (resolveStatus l) ≤ severity x := by
  cases l with
  | nil => simp at hx
  | cons s rest => exact foldlMin_le rest s x hx

theorem severity_eq_zero {s : CoverageStatus} (h : severity s = 0) :
    s = CoverageStatus.uncovered := by
  cases s <;> simp [severity] at h ⊢

/-! ## Store-operation characterization lemmas -/

theorem setFileCoverage_index (st : ProviderState) (p f : String) (m : CoverageMapData) :
    (setFileCoverage st p f m).fileNameToTestPatterns = st.fileNameToTestPatterns := rfl

theorem setFileCoverage_isPass (st : ProviderState) (p f : String) (m : CoverageMapData) :
    (setFileCoverage st p f m).testPatternsToIsPass = st.testPatternsToIsPass := rfl

theorem sfcTable_isSome (tbl0 : List (String × CoverageMapData)) (p f : String)
    (m : CoverageMapData) {q : String} (h : (alGet tbl0 q).isSome) :
    (alGet (setFileCoverageTable tbl0 p f m) q).isSome := by
  unfold setFileCoverageTable
  have htbl : (alGet (if (alGet tbl0 p).isSome then tbl0 else alSet tbl0 p []) q).isSome := by
    split
    · exact h
    · exact alGet_alSet_isSome _ p q [] h
  cases alGet m f
  · exact htbl
  · exact alGet_alSet_isSome _ p q _ htbl

theorem sfcTable_p_isSome (tbl0 : List (String × CoverageMapData)) (p f : String)
    (m : CoverageMapData) :
    (alGet (setFileCoverageTable tbl0 p f m) p).isSome := by
  unfold setFileCoverageTable
  have htbl : (alGet (if (alGet tbl0 p).isSome then tbl0 else alSet tbl0 p []) p).isSome := by
    split
    · assumption
    · simp [alGet_alSet_self]
  cases alGet m f
  · exact htbl
  · simp [alGet_alSet_self]

theorem setFileCoverage_get_self (st : ProviderState) (p f : String)
    (m : CoverageMapData) {fc : FileCoverage} (hm : alGet m f = some fc) :
    getTestPatternFileCoverage (setFileCoverage st p f m) p f = some fc := by
  show (match alGet (setFileCoverageTable st.testPatternsToMap p f m) p with
    | some mm => alGet mm f
    | none => none) = some fc
  unfold setFileCoverageTable
  rw [hm]
  simp only [alGet_alSet_self]

theorem setFileCoverage_get_ne_file (st : ProviderState) (p : String) {fn f : String}
    (m : CoverageMapData) (hne : fn ≠ f) :
    getTestPatternFileCoverage (setFileCoverage st p fn m) p f =
      getTestPatternFileCoverage st p f := by
  show (match alGet (setFileCoverageTable st.testPatternsToMap p fn m) p with
    | some mm => alGet mm f
    | none => none) =
    (match alGet st.testPatternsToMap p with
    | some mm => alGet mm f
    | none => none)
  unfold setFileCoverageTable
  by_cases hp : (alGet st.testPatternsToMap p).isSome
  · obtain ⟨m0, hm0⟩ := Option.isSome_iff_exists.mp hp
    rw [if_pos hp]
    cases hm : alGet m fn
    · rw [hm0]
    · simp only [alGet_alSet_self, hm0, Option.getD_some]
      rw [alGet_alSet_ne _ _ hne]
  · have hp2 : alGet st.testPatternsToMap p = none := Option.not_isSome_iff_eq_none.mp hp
    rw [if_neg hp]
    cases hm : alGet m fn
    · rw [alGet_alSet_self, hp2]
      simp [alGet]
    · simp only [alGet_alSet_self, Option.getD_some, hp2]
      rw [alGet_alSet_ne _ _ hne]
      simp [alGet]

theorem registerFile_isPass (p : String) (m : CoverageMapData) (acc : ProviderState)
    (fn : String) :
    (registerFile p m acc fn).testPatternsToIsPass = acc.testPatternsToIsPass := by
  unfold registerFile
  rw [setFileCoverage_isPass]

theorem registerFile_table (p : String) (m : CoverageMapData) (acc : ProviderState)
    (fn : String) :
    (registerFile p m acc fn).testPatternsToMap =
      (setFileCoverage acc p fn m).testPatternsToMap := by
  unfold registerFile setFileCoverage
  cases alGet m fn <;> cases alGet acc.fileNameToTestPatterns fn <;> rfl

theorem registerFile_index_ne (p : String) (m : CoverageMapData) (acc : ProviderState)
    {fn f : String} (hne : fn ≠ f) :
    alGet (registerFile p m acc fn).fileNameToTestPatterns f =
      alGet acc.fileNameToTestPatterns f := by
  unfold registerFile
  rw [setFileCoverage_index]
  cases alGet acc.fileNameToTestPatterns fn <;> exact alGet_alSet_ne _ _ hne

theorem registerFile_index_self (p : String) (m : CoverageMapData) (acc : ProviderState)
    (fn : String) :
    p ∈ (alGet (registerFile p m acc fn).fileNameToTestPatterns fn).getD [] := by
  unfold registerFile
  rw [setFileCoverage_index]
  cases alGet acc.fileNameToTestPatterns fn
  · simp only [alGet_alSet_self, Option.getD_some]
    simp
  · simp only [alGet_alSet_self, Option.getD_some]
    exact mem_addElem_self _ _

theorem registerFile_index_mono (p : String) (m : CoverageMapData) (acc : ProviderState)
    (fn : String) {q f : String}
    (h : q ∈ (alGet acc.fileNameToTestPatterns f).getD []) :
    q ∈ (alGet (registerFile p m acc fn).fileNameToTestPatterns f).getD [] := by
  by_cases hne : fn = f
  · subst hne
    unfold registerFile
    rw [setFileCoverage_index]
    cases hs : alGet acc.fileNameToTestPatterns fn
    · rw [hs] at h
      simp at h
    · rw [hs] at h
      simp only [Option.getD_some] at h
      simp only [alGet_alSet_self, Option.getD_some]
      exact mem_addElem_of_mem p h
  · rwa [registerFile_index_ne p m acc hne]

theorem registerFile_table_isSome (p : String) (m : CoverageMapData) (acc : ProviderState)
    (fn : String) {q : String} (h : (alGet acc.testPatternsToMap q).isSome) :
    (alGet (registerFile p m acc fn).testPatternsToMap q).isSome := by
  rw [registerFile_table]
  exact sfcTable_isSome acc.testPatternsToMap p fn m h

theorem registerFile_index_members (p : String) (m : CoverageMapData) (acc : ProviderState)
    (fn : String) {pr : String × List String}
    (hpr : pr ∈ (registerFile p m acc fn).fileNameToTestPatterns) {q : String}
    (hq : q ∈ pr.2) :
    q = p ∨ ∃ pr0 ∈ acc.fileNameToTestPatterns, q ∈ pr0.2 := by
  unfold registerFile at hpr
  rw [setFileCoverage_index] at hpr
  cases hs : alGet acc.fileNameToTestPatterns fn with
  | none =>
    rw [hs] at hpr
    rcases mem_alSet hpr with h | h
    · exact Or.inr ⟨pr, h, hq⟩
    · rw [h] at hq
      simp at hq
      exact Or.inl hq
  | some s =>
    rw [hs] at hpr
    rcases mem_alSet hpr with h | h
    · exact Or.inr ⟨pr, h, hq⟩
    · rw [h] at hq
      simp only at hq
      rcases mem_of_addElem hq with h2 | h2
      · exact Or.inr ⟨(fn, s), mem_of_alGet hs, h2⟩
      · exact Or.inl h2

/-! ## Fold lemmas for `update`'s per-file loop -/

theorem foldl_register_isPass (p : String) (m : CoverageMapData) :
    ∀ (l : List String) (acc : ProviderState),
      (l.foldl (registerFile p m) acc).testPatternsToIsPass = acc.testPatternsToIsPass := by
  intro l
  induction l with
  | nil => intro acc; rfl
  | cons a t ih =>
    intro acc
    rw [List.foldl_cons, ih, registerFile_isPass]

theorem foldl_register_index_mono (p : String) (m : CoverageMapData) {q f : String} :
    ∀ (l : List String) (acc : ProviderState),
      q ∈ (alGet acc.fileNameToTestPatterns f).getD [] →
      q ∈ (alGet (l.foldl (registerFile p m) acc).fileNameToTestPatterns f).getD [] := by
  intro l
  induction l with
  | nil => intro acc h; exact h
  | cons a t ih =>
    intro acc h
    exact ih _ (registerFile_index_mono p m acc a h)

theorem foldl_register_index_self (p : String) (m : CoverageMapData) {f : String} :
    ∀ (l : List String) (acc : ProviderState), f ∈ l →
      p ∈ (alGet (l.foldl (registerFile p m) acc).fileNameToTestPatterns f).getD [] := by
  intro l
  induction l with
  | nil => intro acc h; simp at h
  | cons a t ih =>
    intro acc h
    rcases List.mem_cons.mp h with h1 | h1
    · subst h1
      exact foldl_register_index_mono p m t _ (registerFile_index_self p m acc f)
    · exact ih _ h1

theorem getTPFC_congr {st1 st2 : ProviderState} (p f : String)
    (h : st1.testPatternsToMap = st2.testPatternsToMap) :
    getTestPatternFileCoverage st1 p f = getTestPatternFileCoverage st2 p f := by
  unfold getTestPatternFileCoverage
  rw [h]

theorem foldl_register_get_preserve (p : String) (m : CoverageMapData) {f : String} :
    ∀ (l : List String) (acc : ProviderState), f ∉ l →
      getTestPatternFileCoverage (l.foldl (registerFile p m) acc) p f =
        getTestPatternFileCoverage acc p f := by
  intro l
  induction l with
  | nil => intro acc _; rfl
  | cons a t ih =>
    intro acc h
    have ha : a ≠ f := by
      intro he
      exact h (he ▸ List.mem_cons_self a t)
    rw [List.foldl_cons, ih _ (fun hf => h (List.mem_cons_of_mem a hf))]
    rw [getTPFC_congr p f (registerFile_table p m acc a)]
    exact setFileCoverage_get_ne_file acc p m ha

theorem foldl_register_get_set (p : String) (m : CoverageMapData) {f : String}
    {fc : FileCoverage} (hm : alGet m f = some fc) :
    ∀ (l : List String) (acc : ProviderState), f ∈ l →
      getTestPatternFileCoverage (l.foldl (registerFile p m) acc) p f = some fc := by
  intro l
  induction l with
  | nil => intro acc h; simp at h
  | cons a t ih =>
    intro acc h
    by_cases hft : f ∈ t
    · exact ih _ hft
    · have ha : f = a := by
        rcases List.mem_cons.mp h with h1 | h1
        · exact h1
        · exact absurd h1 hft
      subst ha
      rw [List.foldl_cons, foldl_register_get_preserve p m t _ hft]
      rw [getTPFC_congr p f (registerFile_table p m acc f)]
      exact setFileCoverage_get_self acc p f m hm

theorem registerFile_indexInv (p : String) (m : CoverageMapData) (acc : ProviderState)
    (fn : String) (hinv : IndexInv acc) (hp : (alGet acc.testPatternsToMap p).isSome) :
    IndexInv (registerFile p m acc fn) := by
  intro pr hpr q hq
  rcases registerFile_index_members p m acc fn hpr hq with h | ⟨pr0, h0, hq0⟩
  · rw [h]
    exact registerFile_table_isSome p m acc fn hp
  · exact registerFile_table_isSome p m acc fn (hinv pr0 h0 q hq0)

theorem registerFile_verdictInv (p : String) (m : CoverageMapData) (acc : ProviderState)
    (fn : String) (hinv : VerdictInv acc)
    (hp : (alGet acc.testPatternsToIsPass p).isSome) :
    VerdictInv (registerFile p m acc fn) := by
  intro pr hpr q hq
  rw [registerFile_isPass]
  rcases registerFile_index_members p m acc fn hpr hq with h | ⟨pr0, h0, hq0⟩
  · rw [h]
    exact hp
  · exact hinv pr0 h0 q hq0

theorem foldl_register_indexInv (p : String) (m : CoverageMapData) :
    ∀ (l : List String) (acc : ProviderState), IndexInv acc →
      (alGet acc.testPatternsToMap p).isSome →
      IndexInv (l.foldl (registerFile p m) acc) := by
  intro l
  induction l with
  | nil => intro acc h _; exact h
  | cons a t ih =>
    intro acc hinv hp
    exact ih _ (registerFile_indexInv p m acc a hinv hp)
      (registerFile_table_isSome p m acc a hp)

theorem foldl_register_verdictInv (p : String) (m : CoverageMapData) :
    ∀ (l : List String) (acc : ProviderState), VerdictInv acc →
      (alGet acc.testPatternsToIsPass p).isSome →
      VerdictInv (l.foldl (registerFile p m) acc) := by
  intro l
  induction l with
  | nil => intro acc h _; exact h
  | cons a t ih =>
    intro acc hinv hp
    refine ih _ (registerFile_verdictInv p m acc a hinv hp) ?_
    rw [registerFile_isPass]
    exact hp

/-! ## `update` characterization lemmas -/

theorem update_fresh (st : ProviderState) (p : String) (v : Bool)
    (obj : Option CoverageMapData) (h : alGet st.testPatternsToMap p = none) :
    update st p v obj =
      { st with
        testPatternsToIsPass := alSet st.testPatternsToIsPass p v
        testPatternsToMap := alSet st.testPatternsToMap p (obj.getD []) } := by
  simp only [update, h, Option.isSome_none, Bool.false_eq_true, if_false]

theorem update_known (st : ProviderState) (p : String) (v : Bool)
    (obj : Option CoverageMapData) (h : (alGet st.testPatternsToMap p).isSome = true) :
    update st p v obj =
      (covFiles (obj.getD [])).foldl (registerFile p (obj.getD []))
        { st with testPatternsToIsPass := alSet st.testPatternsToIsPass p v } := by
  simp only [update, h, if_true]

theorem update_isPass (st : ProviderState) (p : String) (v : Bool)
    (obj : Option CoverageMapData) :
    (update st p v obj).testPatternsToIsPass = alSet st.testPatternsToIsPass p v := by
  by_cases h : (alGet st.testPatternsToMap p).isSome = true
  · rw [update_known st p v obj h, foldl_register_isPass]
  · rw [update_fresh st p v obj (Option.not_isSome_iff_eq_none.mp (by simpa using h))]

theorem verdictInv_update (st : ProviderState) (p : String) (v : Bool)
    (obj : Option CoverageMapData) (h : VerdictInv st) : VerdictInv (update st p v obj) := by
  by_cases hkn : (alGet st.testPatternsToMap p).isSome = true
  · rw [update_known st p v obj hkn]
    refine foldl_register_verdictInv p _ _ _ ?_ ?_
    · intro pr hpr q hq
      exact alGet_alSet_isSome _ p q v (h pr hpr q hq)
    · simp [alGet_alSet_self]
  · rw [update_fresh st p v obj (Option.not_isSome_iff_eq_none.mp (by simpa using hkn))]
    intro pr hpr q hq
    exact alGet_alSet_isSome _ p q v (h pr hpr q hq)

/-! ## The hue formula, factored for reuse -/

theorem lineRecord_hue_formula (st : ProviderState) (fp : String) (line : Nat)
    (onNone : Option CoverageStatus) :
    (lineRecord st fp line onNone).hue =
      if (lineRecord st fp line onNone).isCovered then
        some (specSuspiciousness st fp line onNone)
      else none := by
  simp only [lineRecord, specSuspiciousness, specTotalPassed, specTotalFailed,
    totalSuccess_eq_countP, totalFailed_eq_countP, zero_add]

theorem tarantula_bounds (nP nF tP tF : Nat) (htP : 0 < tP) (htF : 0 < tF)
    (hsum : 0 < nF + nP) :
    0 ≤ ((nP : Rat) / (tP : Rat)) / ((nP : Rat) / (tP : Rat) + (nF : Rat) / (tF : Rat)) ∧
      ((nP : Rat) / (tP : Rat)) / ((nP : Rat) / (tP : Rat) + (nF : Rat) / (tF : Rat)) ≤ 1 := by
  have ha : (0 : Rat) ≤ (nP : Rat) / (tP : Rat) := by positivity
  have hb : (0 : Rat) ≤ (nF : Rat) / (tF : Rat) := by positivity
  have hab : (0 : Rat) < (nP : Rat) / (tP : Rat) + (nF : Rat) / (tF : Rat) := by
    rcases Nat.eq_zero_or_pos nP with h0 | h0
    · have hnF : 0 < nF := by omega
      have hbpos : (0 : Rat) < (nF : Rat) / (tF : Rat) := by
        apply div_pos <;> exact_mod_cast (by assumption)
      calc (0 : Rat) < (nF : Rat) / (tF : Rat) := hbpos
        _ ≤ (nP : Rat) / (tP : Rat) + (nF : Rat) / (tF : Rat) := le_add_of_nonneg_left ha
    · have hapos : (0 : Rat) < (nP : Rat) / (tP : Rat) := by
        apply div_pos <;> exact_mod_cast (by assumption)
      calc (0 : Rat) < (nP : Rat) / (tP : Rat) := hapos
        _ ≤ (nP : Rat) / (tP : Rat) + (nF : Rat) / (tF : Rat) := le_add_of_nonneg_right hb
  constructor
  · exact div_nonneg ha (le_of_lt hab)
  · rw [div_le_one hab]
    exact le_add_of_nonneg_right hb

/-! ## Claim theorems -/

/-- C1: for every file and line, when `isCovered` is true the scoring
engine's suspiciousness value equals
`(numPassedRuns / totalPassedRuns) /
 ((numPassedRuns / totalPassedRuns) + (numFailedRuns / totalFailedRuns))`,
with the totals counting all contributing entries for the file with pass
and fail verdicts respectively; when `isCovered` is false the value is
left undefined. -/
theorem claim_C1_suspiciousness_formula (st : ProviderState) (fp : String) (line : Nat)
    (onNone : Option CoverageStatus) :
    (lineRecord st fp line onNone).hue =
      if (lineRecord st fp line onNone).isCovered then
        some (specSuspiciousness st fp line onNone)
      else none :=
  lineRecord_hue_formula st fp line onNone

/-- C9: updating a pattern with verdict `true` and then with verdict
`false` leaves the stored verdict `false` — every `update` call
overwrites the verdict. -/
theorem claim_C9_verdict_overwrite (st : ProviderState) (p : String)
    (cov1 cov2 : Option CoverageMapData) :
    getTestPatternIsPass (update (update st p true cov1) p false cov2) p = some false := by
  unfold getTestPatternIsPass
  rw [update_isPass]
  exact alGet_alSet_self _ p false

/-- C7: an `update` with absent coverage is a no-op for the map merge —
every pattern's stored per-file coverage lookup and the whole reverse
index are unchanged — while the verdict is still recorded. -/
theorem claim_C7_absent_coverage_noop (st : ProviderState) (p : String) (v : Bool) :
    (∀ q f, getTestPatternFileCoverage (update st p v none) q f =
        getTestPatternFileCoverage st q f) ∧
    (update st p v none).fileNameToTestPatterns = st.fileNameToTestPatterns ∧
    getTestPatternIsPass (update st p v none) p = some v := by
  by_cases h : (alGet st.testPatternsToMap p).isSome = true
  · rw [update_known st p v none h]
    exact ⟨fun q f => rfl, rfl, alGet_alSet_self _ p v⟩
  · have h2 : alGet st.testPatternsToMap p = none :=
      Option.not_isSome_iff_eq_none.mp (by simpa using h)
    rw [update_fresh st p v none h2]
    refine ⟨fun q f => ?_, rfl, alGet_alSet_self _ p v⟩
    by_cases hq : p = q
    · subst hq
      unfold getTestPatternFileCoverage
      rw [alGet_alSet_self, h2]
      simp [alGet]
    · unfold getTestPatternFileCoverage
      rw [alGet_alSet_ne _ _ hq]

/-- C2: for a fresh pattern `p` whose coverage touches file `f`, after one
`update` call `getFileCoverages(f)` has no entry for `p` (no reverse-index
registration on the first report); after a second `update` call touching
`f` it does. -/
theorem claim_C2_reverse_index_timing (st : ProviderState) (p : String) (v1 v2 : Bool)
    (cov1 cov2 : CoverageMapData) (f : String)
    (hfresh : alGet st.testPatternsToMap p = none)
    (hidx : p ∉ (alGet st.fileNameToTestPatterns f).getD [])
    (_hf1 : f ∈ covFiles cov1) (hf2 : f ∈ covFiles cov2) :
    (∀ e ∈ getFileCoverages (update st p v1 (some cov1)) f, e.testPattern ≠ p) ∧
    (∃ e ∈ getFileCoverages
        (update (update st p v1 (some cov1)) p v2 (some cov2)) f, e.testPattern = p) := by
  have h1 := update_fresh st p v1 (some cov1) hfresh
  constructor
  · intro e he
    rw [h1] at he
    unfold getFileCoverages at he
    rcases List.mem_map.mp he with ⟨q, hq, he2⟩
    rw [← he2]
    intro hqp
    exact hidx (hqp ▸ hq)
  · have hknown : (alGet (update st p v1 (some cov1)).testPatternsToMap p).isSome = true := by
      rw [h1]
      simp [alGet_alSet_self]
    rw [update_known (update st p v1 (some cov1)) p v2 (some cov2) hknown]
    refine ⟨_, List.mem_map.mpr ⟨p, foldl_register_index_self p _ _ _ hf2, rfl⟩, rfl⟩

/-- C4: for a fresh pattern updated twice with coverages that differ on
file `f`, the stored coverage for `f` equals the second report's coverage,
not the first's — last-run-wins overwrite, not a sum or union. -/
theorem claim_C4_last_run_wins (st : ProviderState) (p : String) (v1 v2 : Bool)
    (covA covB : CoverageMapData) (f : String)
    (hfresh : alGet st.testPatternsToMap p = none)
    (hfB : f ∈ covFiles covB)
    (hdiff : alGet covA f ≠ alGet covB f) :
    getTestPatternFileCoverage (update (update st p v1 (some covA)) p v2 (some covB)) p f
        = alGet covB f ∧
    getTestPatternFileCoverage (update (update st p v1 (some covA)) p v2 (some covB)) p f
        ≠ alGet covA f := by
  have h1 := update_fresh st p v1 (some covA) hfresh
  have hknown : (alGet (update st p v1 (some covA)).testPatternsToMap p).isSome = true := by
    rw [h1]
    simp [alGet_alSet_self]
  obtain ⟨fc, hfc⟩ := Option.isSome_iff_exists.mp (alGet_isSome_of_mem_covFiles hfB)
  have h3 : getTestPatternFileCoverage
      (update (update st p v1 (some covA)) p v2 (some covB)) p f = some fc := by
    rw [update_known (update st p v1 (some covA)) p v2 (some covB) hknown]
    exact foldl_register_get_set p _ hfc _ _ hfB
  rw [hfc] at hdiff
  constructor
  · rw [h3, hfc]
  · rw [h3]
    exact fun hh => hdiff hh.symm

/-- C3: when both a function status and a statement status apply to a
line, the resolved status is the most severe candidate under
uncovered > partially-covered > covered; in particular a function hit
count of 0 resolves the line to `uncovered`, and such an entry increments
neither run tally. -/
theorem claim_C3_severity_resolution (fcov : FileCoverage) (line : Nat)
    (onNone : Option CoverageStatus)
    (hf : (getFnCovAt fcov line).isSome) (_hs : (getLineCoverageAt fcov line).isSome) :
    (resolveStatus (statusCandidates fcov line onNone) ∈ statusCandidates fcov line onNone ∧
      ∀ s ∈ statusCandidates fcov line onNone,
        severity (resolveStatus (statusCandidates fcov line onNone)) ≤ severity s) ∧
    (getFnCovAt fcov line = some 0 →
      resolveStatus (statusCandidates fcov line onNone) = CoverageStatus.uncovered ∧
      ∀ (isP : Option Bool) (pat : String),
        entryContributes ⟨some fcov, isP, pat⟩ line onNone = false) := by
  have hne : statusCandidates fcov line onNone ≠ [] := by
    unfold statusCandidates
    obtain ⟨h0, hh0⟩ := Option.isSome_iff_exists.mp hf
    rw [hh0]
    simp
  constructor
  · exact ⟨resolveStatus_mem hne, fun s hs2 => resolveStatus_le hs2⟩
  · intro h0
    have hunc : CoverageStatus.uncovered ∈ statusCandidates fcov line onNone := by
      unfold statusCandidates
      rw [h0]
      simp
    have h00 : severity (resolveStatus (statusCandidates fcov line onNone)) = 0 :=
      Nat.le_zero.mp (by simpa [severity] using resolveStatus_le hunc)
    have hres := severity_eq_zero h00
    refine ⟨hres, fun isP pat => ?_⟩
    unfold entryContributes entryStatus
    simp [hres]

/-- C6: for every line with `isCovered = true`, when the file has at least
one contributing passing run and at least one contributing failing run,
the suspiciousness score lies in [0, 1]. -/
theorem claim_C6_suspiciousness_bounds (st : ProviderState) (fp : String) (line : Nat)
    (onNone : Option CoverageStatus)
    (hcov : (lineRecord st fp line onNone).isCovered = true)
    (hp : 0 < specTotalPassed st fp) (hf : 0 < specTotalFailed st fp) :
    ∃ q : Rat, (lineRecord st fp line onNone).hue = some q ∧ 0 ≤ q ∧ q ≤ 1 := by
  have hq := lineRecord_hue_formula st fp line onNone
  rw [hcov] at hq
  simp only [if_true] at hq
  have hsum : 0 < (lineRecord st fp line onNone).numOfFailedTests +
      (lineRecord st fp line onNone).numOfPassTests := by
    have h2 : (lineRecord st fp line onNone).isCovered =
        decide (0 < (lineRecord st fp line onNone).numOfFailedTests +
          (lineRecord st fp line onNone).numOfPassTests) := rfl
    rw [h2] at hcov
    exact of_decide_eq_true hcov
  have hb := tarantula_bounds (lineRecord st fp line onNone).numOfPassTests
    (lineRecord st fp line onNone).numOfFailedTests
    (specTotalPassed st fp) (specTotalFailed st fp) hp hf hsum
  exact ⟨specSuspiciousness st fp line onNone, hq, hb.1, hb.2⟩

/-- C8: each of `update`, `setFileCoverage` and `reset`, applied to a
state where the reverse index only names patterns present in the
pattern-to-coverage-map table, yields a state with the same property. -/
theorem claim_C8_index_subset_table (st : ProviderState) (p fn : String) (v : Bool)
    (obj : Option CoverageMapData) (m : CoverageMapData) (hinv : IndexInv st) :
    IndexInv (update st p v obj) ∧ IndexInv (setFileCoverage st p fn m) ∧
      IndexInv resetState := by
  refine ⟨?_, ?_, ?_⟩
  · by_cases h : (alGet st.testPatternsToMap p).isSome = true
    · rw [update_known st p v obj h]
      refine foldl_register_indexInv p _ _ _ ?_ ?_
      · intro pr hpr q hq
        exact hinv pr hpr q hq
      · exact h
    · rw [update_fresh st p v obj (Option.not_isSome_iff_eq_none.mp (by simpa using h))]
      intro pr hpr q hq
      exact alGet_alSet_isSome _ p q _ (hinv pr hpr q hq)
  · intro pr hpr q hq
    rw [setFileCoverage_index] at hpr
    exact sfcTable_isSome _ p fn m (hinv pr hpr q hq)
  · intro pr hpr q hq
    simp [resetState] at hpr

/-- C10: in every state reachable from the initial (reset) state by a
sequence of `update` calls, every entry of `getFileCoverages` carries a
defined verdict. -/
theorem claim_C10_entries_have_verdicts
    (calls : List (String × Bool × Option CoverageMapData)) (f : String)
    (e : TestPatternCoverage)
    (he : e ∈ getFileCoverages (applyUpdates resetState calls) f) :
    e.isPass.isSome := by
  have hinvAll : ∀ (cs : List (String × Bool × Option CoverageMapData))
      (st : ProviderState), VerdictInv st → VerdictInv (applyUpdates st cs) := by
    intro cs
    induction cs with
    | nil => intro st h; exact h
    | cons c t ih =>
      intro st h
      exact ih _ (verdictInv_update st c.1 c.2.1 c.2.2 h)
  have hinv : VerdictInv (applyUpdates resetState calls) := by
    refine hinvAll calls resetState ?_
    intro pr hpr q hq
    simp [resetState] at hpr
  unfold getFileCoverages at he
  cases hidx : alGet (applyUpdates resetState calls).fileNameToTestPatterns f with
  | none =>
    rw [hidx] at he
    simp at he
  | some s =>
    rw [hidx] at he
    simp only [Option.getD_some] at he
    rcases List.mem_map.mp he with ⟨q, hq, he2⟩
    rw [← he2]
    exact hinv (f, s) (mem_of_alGet hidx) q hq

/-- C5 counterexample: after exactly one `update` call for each pattern
(A passed, B failed), the reverse index is still empty, so line 10 of `f`
is reported uncovered with zero tallies — not the claimed
`{numPassedRuns: 1, numFailedRuns: 1, suspiciousness: 0.5}`. -/
theorem claim_C5_counterexample :
    ¬ (lineRecord stOneUpdateEach "f" 10 none =
        { numOfFailedTests := 1, numOfPassTests := 1, hue := some (1/2 : Rat),
          isCovered := true } ∧
       lineRecord stOneUpdateEach "f" 20 none =
        { numOfFailedTests := 0, numOfPassTests := 1, hue := some (1 : Rat),
          isCovered := true }) := by decide

/-- C5 amended: after two `update` calls per pattern (the second call
registers the reverse index), line 10 of `f` is
`{numPassedRuns: 1, numFailedRuns: 1, suspiciousness: 0.5}` and line 20 is
`{numPassedRuns: 1, numFailedRuns: 0, suspiciousness: 1.0}`. -/
theorem claim_C5_amended :
    lineRecord stTwoUpdatesEach "f" 10 none =
      { numOfFailedTests := 1, numOfPassTests := 1, hue := some (1/2 : Rat),
        isCovered := true } ∧
    lineRecord stTwoUpdatesEach "f" 20 none =
      { numOfFailedTests := 0, numOfPassTests := 1, hue := some (1 : Rat),
        isCovered := true } := by
  have h1 : lineNumPass (getFileCoverages stTwoUpdatesEach "f") 10 none = 1 := by decide
  have h2 : lineNumFailed (getFileCoverages stTwoUpdatesEach "f") 10 none = 1 := by decide
  have h3 : totalSuccess (getFileCoverages stTwoUpdatesEach "f") = 1 := by decide
  have h4 : totalFailed (getFileCoverages stTwoUpdatesEach "f") = 1 := by decide
  have h5 : lineNumPass (getFileCoverages stTwoUpdatesEach "f") 20 none = 1 := by decide
  have h6 : lineNumFailed (getFileCoverages stTwoUpdatesEach "f") 20 none = 0 := by decide
  constructor
  · simp only [lineRecord, h1, h2, h3, h4]
    norm_num
  · simp only [lineRecord, h5, h6, h3, h4]
    norm_num

/-! ## Witnesses: the hypothesised theorems instantiated at concrete inputs -/

/-- Witness for C2 at a concrete fresh pattern and store. -/
theorem claim_C2_witness :
    alGet resetState.testPatternsToMap "p" = none ∧
    "p" ∉ (alGet resetState.fileNameToTestPatterns "f").getD [] ∧
    "f" ∈ covFiles covScenB ∧
    ((∀ e ∈ getFileCoverages (update resetState "p" true (some covScenB)) "f",
        e.testPattern ≠ "p") ∧
      (∃ e ∈ getFileCoverages
          (update (update resetState "p" true (some covScenB)) "p" true (some covScenB)) "f",
        e.testPattern = "p")) :=
  ⟨by decide, by decide, by decide,
    claim_C2_reverse_index_timing resetState "p" true true covScenB covScenB "f"
      (by decide) (by decide) (by decide) (by decide)⟩

/-- Witness for C4 at two concrete differing coverages of `f`. -/
theorem claim_C4_witness :
    alGet resetState.testPatternsToMap "p" = none ∧
    "f" ∈ covFiles covScenB ∧
    alGet covScenA "f" ≠ alGet covScenB "f" ∧
    (getTestPatternFileCoverage
        (update (update resetState "p" true (some covScenA)) "p" false (some covScenB)) "p" "f"
          = alGet covScenB "f" ∧
      getTestPatternFileCoverage
        (update (update resetState "p" true (some covScenA)) "p" false (some covScenB)) "p" "f"
          ≠ alGet covScenA "f") :=
  ⟨by decide, by decide, by decide,
    claim_C4_last_run_wins resetState "p" true false covScenA covScenB "f"
      (by decide) (by decide) (by decide)⟩

/-- Witness for C3 at a line with function hit count 0 and statement hit
count 5. -/
theorem claim_C3_witness :
    (getFnCovAt fnZeroStmtFive 3).isSome ∧ (getLineCoverageAt fnZeroStmtFive 3).isSome ∧
    getFnCovAt fnZeroStmtFive 3 = some 0 ∧
    (resolveStatus (statusCandidates fnZeroStmtFive 3 none) = CoverageStatus.uncovered ∧
      ∀ (isP : Option Bool) (pat : String),
        entryContributes ⟨some fnZeroStmtFive, isP, pat⟩ 3 none = false) :=
  ⟨by decide, by decide, by decide,
    (claim_C3_severity_resolution fnZeroStmtFive 3 none (by decide) (by decide)).2 (by decide)⟩

/-- Witness for C6 at a covered line with both totals nonzero. -/
theorem claim_C6_witness :
    (lineRecord stTwoUpdatesEach "f" 10 none).isCovered = true ∧
    0 < specTotalPassed stTwoUpdatesEach "f" ∧
    0 < specTotalFailed stTwoUpdatesEach "f" ∧
    ∃ q : Rat, (lineRecord stTwoUpdatesEach "f" 10 none).hue = some q ∧ 0 ≤ q ∧ q ≤ 1 :=
  ⟨by decide, by decide, by decide,
    claim_C6_suspiciousness_bounds stTwoUpdatesEach "f" 10 none
      (by decide) (by decide) (by decide)⟩

/-- Witness for C8 starting from the (trivially invariant-satisfying)
reset state. -/
theorem claim_C8_witness :
    IndexInv resetState ∧
    (IndexInv (update resetState "p" true (some covScenA)) ∧
      IndexInv (setFileCoverage resetState "p" "f" covScenA) ∧ IndexInv resetState) :=
  ⟨by decide,
    claim_C8_index_subset_table resetState "p" "f" true (some covScenA) covScenA (by decide)⟩

/-- Witness for C10 at a concrete two-call update sequence producing a
registered entry. -/
theorem claim_C10_witness :
    (⟨some ⟨"f", [⟨10, 1⟩], [], []⟩, some true, "p"⟩ : TestPatternCoverage) ∈
      getFileCoverages
        (applyUpdates resetState [("p", true, some covScenB), ("p", true, some covScenB)])
        "f" ∧
    (⟨some ⟨"f", [⟨10, 1⟩], [], []⟩, some true, "p"⟩ : TestPatternCoverage).isPass.isSome :=
  ⟨by decide,
    claim_C10_entries_have_verdicts
      [("p", true, some covScenB), ("p", true, some covScenB)] "f"
      ⟨some ⟨"f", [⟨10, 1⟩], [], []⟩, some true, "p"⟩ (by decide)⟩
